import Mathlib

/-!
Shallow embedding of the trading app (src/app.py and src/app_aws.py).

Money values (balances, prices) are rationals; quantities are integers
(Python `int`).  app.py computes money in IEEE-754 binary64, so the file
carries two models of the arithmetic: an exact-rational idealisation
(`buy_stock`, `sell_stock`), faithful for branch structure, frames and
sign preservation, and a binary64-accurate model (`roundDouble`,
`buy_stock_float`, `sell_stock_float`) in which every arithmetic result
is rounded to the double grid — required wherever exactness of the
arithmetic itself is the claim.  The in-memory stores of app.py — the
global lists `users`, `portfolio`, `watchlists` — become lists inside
`AppState`.
Each Flask route that the claims mention is embedded as a function from the
pre-state (plus the parsed request data) to a result tag and the post-state.
Form fields parsed with `int(...)` / `float(...)` arrive as `Option`:
`none` models an unparsable string (Python raises `ValueError`).
-/

/-- A row of the price table built by `load_latest_prices` in app.py:
company name and latest close price (the `date` field plays no role in
any claim and is omitted). -/
structure Stock where
  company : String
  price : ℚ
deriving DecidableEq, Repr

/-- An entry of the global `users` list in app.py.  The stored password is
the hash string produced by `generate_password_hash`; hashing itself is an
external collaborator, so the field just carries the string. -/
structure User where
  id : Nat
  name : String
  email : String
  password : String
  balance : ℚ
deriving DecidableEq, Repr

/-- An entry of the global `portfolio` list in app.py. -/
structure Holding where
  user : String
  company : String
  quantity : Int
  buy_price : ℚ
deriving DecidableEq, Repr

/-- An entry of the global `watchlists` list in app.py. -/
structure WatchEntry where
  user : String
  company : String
deriving DecidableEq, Repr

/-- The whole mutable state of app.py: the three global lists. -/
structure AppState where
  users : List User
  portfolio : List Holding
  watchlists : List WatchEntry
deriving DecidableEq, Repr

/-- In-place mutation of the first list element satisfying `p`
(Python mutates the dict found by `next(...)`). -/
def updateFirst (p : α → Bool) (f : α → α) : List α → List α
  | [] => []
  | x :: xs => if p x then f x :: xs else x :: updateFirst p f xs

/-- `get_user` in app.py: first user whose `name` equals the session name. -/
def get_user (st : AppState) (username : String) : Option User :=
  st.users.find? (fun u => u.name == username)

/-- Outcome of the `buy_stock` route (each constructor is one flash/redirect
path of the handler). -/
inductive BuyResult
  | sessionExpired
  | invalidQuantity
  | stockNotFound
  | insufficientBalance
  | bought
deriving DecidableEq, Repr

/-- `buy_stock` in app.py (lines 156–201), for a request whose session
already names `username`.  Branch order follows the source: user lookup,
quantity parse, stock lookup, balance check, then the two mutations
(debit the user's balance in place, append a fresh portfolio row).  The
debit is idealised as exact rational subtraction; `buy_stock_float` below
is the variant with the source's binary64 rounding, needed only where the
exactness of the arithmetic is at stake. -/
def buy_stock (stocks : List Stock) (st : AppState) (username : String)
    (qtyForm : Option Int) (company : String) : BuyResult × AppState :=
  match get_user st username with
  | none => (.sessionExpired, st)
  | some user =>
    match qtyForm with
    | none => (.invalidQuantity, st)
    | some qty =>
      match stocks.find? (fun s => s.company == company) with
      | none => (.stockNotFound, st)
      | some stock =>
        let total_cost : ℚ := (qty : ℚ) * stock.price
        if user.balance < total_cost then (.insufficientBalance, st)
        else
          (.bought,
            { st with
              users := updateFirst (fun u => u.name == username)
                (fun u => { u with balance := u.balance - total_cost }) st.users
              portfolio := st.portfolio ++
                [{ user := username, company := company,
                   quantity := qty, buy_price := stock.price }] })

/-- Outcome of the `sell_stock` route.  `crash` is an unhandled Python
exception escaping the handler (`ValueError` from a bare `int(...)` /
`float(...)`, or `TypeError` from indexing a `None` user): the process
returns a 500 with no store mutation. -/
inductive SellResult
  | crash
  | notEnough
  | sold
deriving DecidableEq, Repr

/-- The predicate of the `next(...)` holding lookup in `sell_stock`. -/
def matchesHolding (username company : String) (h : Holding) : Bool :=
  h.user == username && h.company == company

/-- Lines 229–232 of app.py: decrement the quantity of the first matching
holding in place, and `portfolio.remove` it when the quantity hits zero. -/
def sellPortfolio (username company : String) (qty : Int) :
    List Holding → List Holding
  | [] => []
  | h :: hs =>
    if matchesHolding username company h then
      if h.quantity - qty = 0 then hs
      else { h with quantity := h.quantity - qty } :: hs
    else h :: sellPortfolio username company qty hs

/-- `sell_stock` in app.py (lines 206–236).  The source parses quantity and
sell price with no try/except (unparsable input raises), then looks up the
first matching holding; `user["balance"] += ...` runs only after the
quantity check, so a missing user crashes only on the success path.  The
credit is idealised as exact rational addition; `sell_stock_float` below
is the variant with the source's binary64 rounding. -/
def sell_stock (st : AppState) (username : String)
    (qtyForm : Option Int) (priceForm : Option ℚ) (company : String) :
    SellResult × AppState :=
  match qtyForm with
  | none => (.crash, st)
  | some qty_to_sell =>
    match priceForm with
    | none => (.crash, st)
    | some sell_price =>
      match st.portfolio.find? (matchesHolding username company) with
      | none => (.notEnough, st)
      | some holding =>
        if holding.quantity < qty_to_sell then (.notEnough, st)
        else
          match get_user st username with
          | none => (.crash, st)
          | some _ =>
            (.sold,
              { st with
                users := updateFirst (fun u => u.name == username)
                  (fun u => { u with
                    balance := u.balance + sell_price * (qty_to_sell : ℚ) })
                  st.users
                portfolio := sellPortfolio username company qty_to_sell
                  st.portfolio })

/-- `add_to_watchlist` in app.py (lines 290–302): append unless the
(user, company) pair is already present. -/
def add_to_watchlist (st : AppState) (username company : String) : AppState :=
  if st.watchlists.any (fun w => w.user == username && w.company == company)
  then st
  else { st with watchlists := st.watchlists ++
    [{ user := username, company := company }] }

/-- Outcome of the `signup` route. -/
inductive SignupResult
  | duplicateEmail
  | created
deriving DecidableEq, Repr

/-- `signup` in app.py (lines 75–98), POST branch: reject a duplicate email
with no state change, otherwise append a user with starting balance 100000. -/
def signup (st : AppState) (name email password : String) :
    SignupResult × AppState :=
  if st.users.any (fun u => u.email == email) then (.duplicateEmail, st)
  else
    (.created,
      { st with users := st.users ++
        [{ id := st.users.length + 1, name := name, email := email,
           password := password, balance := 100000 }] })

/-- One engine operation of app.py, as the claims enumerate them:
buy, sell, watchlist add, valuation.  The valuation page
(`portfolio_page`, lines 241–285) only reads state. -/
inductive Op
  | buy (username company : String) (qtyForm : Option Int)
  | sell (username company : String) (qtyForm : Option Int)
      (priceForm : Option ℚ)
  | watch (username company : String)
  | valuation (username : String)

/-- State reached by one operation (result tag discarded). -/
def step (stocks : List Stock) (st : AppState) : Op → AppState
  | .buy u c q => (buy_stock stocks st u q c).2
  | .sell u c q p => (sell_stock st u q p c).2
  | .watch u c => add_to_watchlist st u c
  | .valuation _ => st

/-- State after a sequence of operations. -/
def run (stocks : List Stock) (st : AppState) : List Op → AppState
  | [] => st
  | op :: ops => run stocks (step stocks st op) ops

/-!
Embedding of src/app_aws.py.  The DynamoDB tables become lists keyed by
`email` (Users) and by `(email, company)` (Portfolio); `put_item` is an
upsert that replaces the whole item at its key.  `COMPANIES[company]` in
`get_latest_price` raises `KeyError` for a company outside the dict, so an
unknown symbol is an unhandled exception, not a typed failure.
-/

/-- An item of the DynamoDB `Users` table in app_aws.py. -/
structure AwsUser where
  email : String
  name : String
  password : String
  balance : ℚ
deriving DecidableEq, Repr

/-- An item of the DynamoDB `Portfolio` table in app_aws.py
(key: email + company). -/
structure AwsHolding where
  email : String
  company : String
  quantity : Int
  buy_price : ℚ
deriving DecidableEq, Repr

/-- The state of app_aws.py: the three DynamoDB tables. -/
structure AwsState where
  users : List AwsUser
  portfolio : List AwsHolding
  watchlist : List WatchEntry
deriving DecidableEq, Repr

/-- Outcome of the AWS `buy_stock` route; `crash` is an unhandled exception
(`ValueError` from `int(...)`, `KeyError` from `COMPANIES[company]`, or
`TypeError` when `get_user` returns `None`). -/
inductive AwsBuyResult
  | crash
  | insufficientBalance
  | bought
deriving DecidableEq, Repr

/-- `portfolio_table.put_item`: replace the item at key (email, company)
if present, else append it. -/
def aws_put_holding (h : AwsHolding) : List AwsHolding → List AwsHolding
  | [] => [h]
  | x :: xs =>
    if x.email == h.email && x.company == h.company then h :: xs
    else x :: aws_put_holding h xs

/-- `buy_stock` in app_aws.py (lines 219–255), for a session holding
`email`.  `companies` models the `COMPANIES` dict together with the latest
close price of each company's CSV file.  Branch order follows the source:
quantity parse, price lookup (KeyError on an unknown symbol), user fetch,
balance check, then balance update and portfolio `put_item`. -/
def aws_buy_stock (companies : List (String × ℚ)) (st : AwsState)
    (email : String) (qtyForm : Option Int) (company : String) :
    AwsBuyResult × AwsState :=
  match qtyForm with
  | none => (.crash, st)
  | some qty =>
    match companies.find? (fun c => c.1 == company) with
    | none => (.crash, st)
    | some c =>
      let price := c.2
      let total_cost : ℚ := price * (qty : ℚ)
      match st.users.find? (fun u => u.email == email) with
      | none => (.crash, st)
      | some user =>
        if user.balance < total_cost then (.insufficientBalance, st)
        else
          (.bought,
            { st with
              users := updateFirst (fun u => u.email == email)
                (fun u => { u with balance := u.balance - total_cost })
                st.users
              portfolio := aws_put_holding
                { email := email, company := company,
                  quantity := qty, buy_price := price } st.portfolio })

/-- `signup` in app_aws.py (lines 123–147), POST branch: `get_item` on the
email, reject when present, else `put_item` a user with balance 100000. -/
def aws_signup (st : AwsState) (name email password : String) :
    SignupResult × AwsState :=
  if st.users.any (fun u => u.email == email) then (.duplicateEmail, st)
  else
    (.created,
      { st with users := st.users ++
        [{ email := email, name := name, password := password,
           balance := 100000 }] })

/-! Concrete fixtures used by counterexamples and witnesses. -/

/-- The single stock of the example price table. -/
def exStock : Stock := { company := "A", price := 150 }

/-- Example price table. -/
def exStocks : List Stock := [exStock]

/-- Example user with the signup starting balance. -/
def exUser : User :=
  { id := 1, name := "alice", email := "a@x", password := "h",
    balance := 100000 }

/-- Example pre-existing holding: 5 shares of "A" at 150. -/
def exHolding : Holding :=
  { user := "alice", company := "A", quantity := 5, buy_price := 150 }

/-- Example app.py state: one user, one holding. -/
def exState : AppState :=
  { users := [exUser], portfolio := [exHolding], watchlists := [] }

/-- Example app.py state with an empty portfolio. -/
def exStateEmpty : AppState :=
  { users := [exUser], portfolio := [], watchlists := [] }

/-- Example `COMPANIES` table (with prices) for app_aws.py. -/
def exCompanies : List (String × ℚ) := [("Apple", 150)]

/-- Example DynamoDB user. -/
def exAwsUser : AwsUser :=
  { email := "a@x", name := "alice", password := "h", balance := 100000 }

/-- Example app_aws.py state. -/
def exAwsState : AwsState :=
  { users := [exAwsUser], portfolio := [], watchlist := [] }

/-- Total quantity of `symbol` currently held by `username` across all
portfolio rows (app.py can hold several rows per (user, company)). -/
def heldQty (st : AppState) (username company : String) : Int :=
  ((st.portfolio.filter (matchesHolding username company)).map
    Holding.quantity).sum

/-- A sell request whose parsed quantity is positive and whose parsed sell
price is nonnegative (unparsable requests crash without mutating, so they
need no constraint).  All other operations are unconstrained. -/
def sellSafe : Op → Prop
  | .sell _ _ (some q) (some p) => 0 < q ∧ 0 ≤ p
  | _ => True

/-- A buy request whose parsed quantity is positive (unparsable requests
are rejected by the handler).  All other operations are unconstrained. -/
def buySafe : Op → Prop
  | .buy _ _ (some q) => 0 < q
  | _ => True


/-!
IEEE-754 binary64 model.  app.py stores balances as Python floats
(doubles) and computes `qty * price`, `balance -= total_cost` and
`balance += sell_price * qty` in double arithmetic, each operation
rounding its exact result to the nearest double (ties to even).  The
rational-valued functions above idealise this as exact arithmetic, which
is faithful for branch structure, frames and sign preservation but NOT
for exact-identity claims.  For those, the following model rounds every
arithmetic result to the binary64 grid: a positive double in the binade
[2^e, 2^(e+1)) is an integer multiple of the quantum 2^(e-52).  Exponent
overflow to infinity and subnormal underflow are not modelled (they
cannot be reached from the balances and prices the claims discuss).
-/

/-- Round `x` to the nearest integer multiple of the quantum `u`,
ties to the even multiple (the IEEE-754 default rounding at a fixed
exponent). -/
def roundQuantum (u x : ℚ) : ℚ :=
  if x / u - ⌊x / u⌋ < 1/2 then (⌊x / u⌋ : ℚ) * u
  else if (1:ℚ)/2 < x / u - ⌊x / u⌋ then ((⌊x / u⌋ : ℚ) + 1) * u
  else if ⌊x / u⌋ % 2 = 0 then (⌊x / u⌋ : ℚ) * u
  else ((⌊x / u⌋ : ℚ) + 1) * u

/-- Round a real (rational) value to the nearest binary64 double, ties to
even: the quantum of a positive value `x` with `2^e ≤ x < 2^(e+1)` is
`2^(e-52)` (53-bit significand); `Int.log 2 x` is that `e`.  Negative
values round symmetrically; zero is exact. -/
def roundDouble (x : ℚ) : ℚ :=
  if x = 0 then 0
  else if 0 < x then roundQuantum ((2:ℚ) ^ (Int.log 2 x - 52)) x
  else - roundQuantum ((2:ℚ) ^ (Int.log 2 (-x) - 52)) (-x)

/-- Double multiplication: exact product, then one rounding. -/
def fmul (x y : ℚ) : ℚ := roundDouble (x * y)

/-- Double addition: exact sum, then one rounding. -/
def fadd (x y : ℚ) : ℚ := roundDouble (x + y)

/-- Double subtraction: exact difference, then one rounding. -/
def fsub (x y : ℚ) : ℚ := roundDouble (x - y)

/-- Conversion of a Python `int` to a double (`float(q)`), as performed
implicitly by `int * float` and `int - float`. -/
def fofInt (q : Int) : ℚ := roundDouble (q : ℚ)

/-- `buy_stock` of app.py with the balance arithmetic carried out in
binary64 like the source (`total_cost = qty * stock["price"]` is an
int-to-double conversion and a double multiply; `user["balance"] -=
total_cost` is a double subtract).  Branches and stored fields are
identical to `buy_stock`; only the arithmetic differs. -/
def buy_stock_float (stocks : List Stock) (st : AppState) (username : String)
    (qtyForm : Option Int) (company : String) : BuyResult × AppState :=
  match get_user st username with
  | none => (.sessionExpired, st)
  | some user =>
    match qtyForm with
    | none => (.invalidQuantity, st)
    | some qty =>
      match stocks.find? (fun s => s.company == company) with
      | none => (.stockNotFound, st)
      | some stock =>
        let total_cost : ℚ := fmul (fofInt qty) stock.price
        if user.balance < total_cost then (.insufficientBalance, st)
        else
          (.bought,
            { st with
              users := updateFirst (fun u => u.name == username)
                (fun u => { u with balance := fsub u.balance total_cost })
                st.users
              portfolio := st.portfolio ++
                [{ user := username, company := company,
                   quantity := qty, buy_price := stock.price }] })

/-- `sell_stock` of app.py with the credit `user["balance"] +=
sell_price * qty_to_sell` carried out in binary64 (double multiply, then
double add).  Branches and the portfolio update are identical to
`sell_stock`. -/
def sell_stock_float (st : AppState) (username : String)
    (qtyForm : Option Int) (priceForm : Option ℚ) (company : String) :
    SellResult × AppState :=
  match qtyForm with
  | none => (.crash, st)
  | some qty_to_sell =>
    match priceForm with
    | none => (.crash, st)
    | some sell_price =>
      match st.portfolio.find? (matchesHolding username company) with
      | none => (.notEnough, st)
      | some holding =>
        if holding.quantity < qty_to_sell then (.notEnough, st)
        else
          match get_user st username with
          | none => (.crash, st)
          | some _ =>
            (.sold,
              { st with
                users := updateFirst (fun u => u.name == username)
                  (fun u => { u with
                    balance := fadd u.balance
                      (fmul sell_price (fofInt qty_to_sell)) })
                  st.users
                portfolio := sellPortfolio username company qty_to_sell
                  st.portfolio })

/-- Price table with one stock at price 1.0 (exactly representable). -/
def exStocksOne : List Stock := [{ company := "B", price := 1 }]

/-- State whose single account balance is 2^53 + 2 = 9007199254740994 — a
double exactly representable in binary64 (the spacing at 2^53 is 2), and
reachable through the unchecked caller-supplied sell price. -/
def exStateBig : AppState :=
  { users := [{ id := 1, name := "alice", email := "a@x",
                password := "h", balance := 9007199254740994 }],
    portfolio := [], watchlists := [] }

/-! Helper lemmas about the list primitives of the embedding. -/

theorem find?_updateFirst (p : α → Bool) (f : α → α)
    (hf : ∀ x, p x = true → p (f x) = true) :
    ∀ l : List α, (updateFirst p f l).find? p = (l.find? p).map f := by
  intro l
  induction l with
  | nil => rfl
  | cons x xs ih =>
    by_cases hx : p x = true
    · rw [updateFirst, if_pos hx,
        List.find?_cons_of_pos _ (hf x hx), List.find?_cons_of_pos _ hx]
      rfl
    · rw [updateFirst, if_neg hx,
        List.find?_cons_of_neg _ hx, List.find?_cons_of_neg _ hx]
      exact ih

theorem mem_updateFirst (p : α → Bool) (f : α → α) :
    ∀ {l : List α} {x : α}, x ∈ updateFirst p f l →
      x ∈ l ∨ ∃ y, l.find? p = some y ∧ x = f y := by
  intro l
  induction l with
  | nil => intro x hx; rw [updateFirst] at hx; exact absurd hx (by simp)
  | cons a as ih =>
    intro x hx
    by_cases ha : p a = true
    · rw [updateFirst, if_pos ha] at hx
      rcases List.mem_cons.1 hx with rfl | hx
      · exact Or.inr ⟨a, List.find?_cons_of_pos _ ha, rfl⟩
      · exact Or.inl (List.mem_cons_of_mem _ hx)
    · rw [updateFirst, if_neg ha] at hx
      rcases List.mem_cons.1 hx with rfl | hx
      · exact Or.inl (List.mem_cons_self _ _)
      · rcases ih hx with h | ⟨y, hy, rfl⟩
        · exact Or.inl (List.mem_cons_of_mem _ h)
        · exact Or.inr ⟨y, by rw [List.find?_cons_of_neg _ ha]; exact hy, rfl⟩

theorem forall₂_updateFirst (R : α → α → Prop) (p : α → Bool) (f : α → α)
    (h1 : ∀ x, R x x) (h2 : ∀ x, p x = true → R x (f x)) :
    ∀ l : List α, List.Forall₂ R l (updateFirst p f l) := by
  intro l
  induction l with
  | nil => exact List.Forall₂.nil
  | cons x xs ih =>
    by_cases hx : p x = true
    · rw [updateFirst, if_pos hx]
      exact List.Forall₂.cons (h2 x hx)
        (List.forall₂_same.2 fun y _ => h1 y)
    · rw [updateFirst, if_neg hx]
      exact List.Forall₂.cons (h1 x) ih

theorem find?_eq_some_split (p : α → Bool) :
    ∀ {l : List α} {a : α}, l.find? p = some a →
      p a = true ∧ ∃ l₁ l₂, l = l₁ ++ a :: l₂ ∧ ∀ x ∈ l₁, p x = false := by
  intro l
  induction l with
  | nil => intro a h; exact absurd h (by simp)
  | cons b bs ih =>
    intro a h
    by_cases hb : p b = true
    · rw [List.find?_cons_of_pos _ hb] at h
      cases h
      exact ⟨hb, [], bs, rfl, by simp⟩
    · rw [List.find?_cons_of_neg _ hb] at h
      obtain ⟨hpa, l₁, l₂, rfl, hl₁⟩ := ih h
      refine ⟨hpa, b :: l₁, l₂, rfl, ?_⟩
      intro x hx
      rcases List.mem_cons.1 hx with rfl | hx
      · exact Bool.eq_false_iff.2 hb
      · exact hl₁ x hx

theorem sellPortfolio_of_split (username company : String) (q : Int)
    (h : Holding) (l₂ : List Holding) :
    ∀ l₁ : List Holding, (∀ x ∈ l₁, matchesHolding username company x = false) →
    matchesHolding username company h = true →
    sellPortfolio username company q (l₁ ++ h :: l₂) =
      l₁ ++ (if h.quantity - q = 0 then l₂
        else { h with quantity := h.quantity - q } :: l₂) := by
  intro l₁
  induction l₁ with
  | nil => intro _ hh; simp [sellPortfolio, hh]
  | cons x xs ih =>
    intro h₁ hh
    have hx : matchesHolding username company x = false := h₁ x (by simp)
    rw [List.cons_append, sellPortfolio]
    simp only [hx, Bool.false_eq_true, if_false]
    rw [ih (fun y hy => h₁ y (List.mem_cons_of_mem _ hy)) hh, List.cons_append]

theorem mem_sellPortfolio (username company : String) (q : Int) :
    ∀ {l : List Holding} {x : Holding}, x ∈ sellPortfolio username company q l →
      x ∈ l ∨ ∃ y, l.find? (matchesHolding username company) = some y ∧
        y.quantity - q ≠ 0 ∧ x = { y with quantity := y.quantity - q } := by
  intro l
  induction l with
  | nil => intro x hx; rw [sellPortfolio] at hx; exact absurd hx (by simp)
  | cons a as ih =>
    intro x hx
    by_cases ha : matchesHolding username company a = true
    · rw [sellPortfolio, if_pos ha] at hx
      by_cases hz : a.quantity - q = 0
      · rw [if_pos hz] at hx
        exact Or.inl (List.mem_cons_of_mem _ hx)
      · rw [if_neg hz] at hx
        rcases List.mem_cons.1 hx with rfl | hx
        · exact Or.inr ⟨a, List.find?_cons_of_pos _ ha, hz, rfl⟩
        · exact Or.inl (List.mem_cons_of_mem _ hx)
    · rw [sellPortfolio, if_neg ha] at hx
      rcases List.mem_cons.1 hx with rfl | hx
      · exact Or.inl (List.mem_cons_self _ _)
      · rcases ih hx with h | ⟨y, hy, hz, rfl⟩
        · exact Or.inl (List.mem_cons_of_mem _ h)
        · exact Or.inr
            ⟨y, by rw [List.find?_cons_of_neg _ ha]; exact hy, hz, rfl⟩

theorem le_sum_of_mem_of_nonneg :
    ∀ {l : List Int}, (∀ x ∈ l, 0 ≤ x) → ∀ {a : Int}, a ∈ l → a ≤ l.sum := by
  intro l
  induction l with
  | nil => intro _ a ha; exact absurd ha (by simp)
  | cons b bs ih =>
    intro hl a ha
    rw [List.sum_cons]
    rcases List.mem_cons.1 ha with rfl | ha
    · have : (0:Int) ≤ bs.sum :=
        List.sum_nonneg fun x hx => hl x (List.mem_cons_of_mem _ hx)
      omega
    · have h1 : a ≤ bs.sum := ih (fun x hx => hl x (List.mem_cons_of_mem _ hx)) ha
      have h2 : (0:Int) ≤ b := hl b (List.mem_cons_self _ _)
      omega

/-! Characterisation of the success paths of `buy_stock` and `sell_stock`:
a `bought` / `sold` result pins down every branch condition and the
post-state. -/

theorem buy_stock_bought (stocks : List Stock) (st : AppState)
    (username company : String) (qty : Int)
    (h : (buy_stock stocks st username (some qty) company).1 = .bought) :
    ∃ user stock, get_user st username = some user ∧
      stocks.find? (fun s => s.company == company) = some stock ∧
      ¬ user.balance < (qty : ℚ) * stock.price ∧
      (buy_stock stocks st username (some qty) company).2 =
        { st with
          users := updateFirst (fun u => u.name == username)
            (fun u => { u with balance := u.balance - (qty : ℚ) * stock.price })
            st.users
          portfolio := st.portfolio ++
            [{ user := username, company := company,
               quantity := qty, buy_price := stock.price }] } := by
  cases hu : get_user st username with
  | none => simp [buy_stock, hu] at h
  | some user =>
    cases hs : stocks.find? (fun s => s.company == company) with
    | none => simp [buy_stock, hu, hs] at h
    | some stock =>
      by_cases hb : user.balance < (qty : ℚ) * stock.price
      · simp [buy_stock, hu, hs, if_pos hb] at h
      · refine ⟨user, stock, rfl, rfl, hb, ?_⟩
        simp only [buy_stock, hu, hs, if_neg hb]

theorem sell_stock_sold (st : AppState) (username company : String)
    (qty : Int) (price : ℚ)
    (h : (sell_stock st username (some qty) (some price) company).1 = .sold) :
    ∃ holding user,
      st.portfolio.find? (matchesHolding username company) = some holding ∧
      ¬ holding.quantity < qty ∧
      get_user st username = some user ∧
      (sell_stock st username (some qty) (some price) company).2 =
        { st with
          users := updateFirst (fun u => u.name == username)
            (fun u => { u with balance := u.balance + price * (qty : ℚ) })
            st.users
          portfolio := sellPortfolio username company qty st.portfolio } := by
  cases hh : st.portfolio.find? (matchesHolding username company) with
  | none => simp [sell_stock, hh] at h
  | some holding =>
    by_cases hq : holding.quantity < qty
    · simp [sell_stock, hh, if_pos hq] at h
    · cases hu : get_user st username with
      | none => simp [sell_stock, hh, if_neg hq, hu] at h
      | some user =>
        refine ⟨holding, user, rfl, hq, rfl, ?_⟩
        simp only [sell_stock, hh, if_neg hq, hu]

/-! Preservation lemmas: how each operation acts on balances and on
holding quantities. -/

theorem add_to_watchlist_users (st : AppState) (username company : String) :
    (add_to_watchlist st username company).users = st.users := by
  unfold add_to_watchlist
  split <;> rfl

theorem add_to_watchlist_portfolio (st : AppState)
    (username company : String) :
    (add_to_watchlist st username company).portfolio = st.portfolio := by
  unfold add_to_watchlist
  split <;> rfl

theorem buy_stock_users_nonneg (stocks : List Stock) (st : AppState)
    (username company : String) (qtyForm : Option Int)
    (h : ∀ u ∈ st.users, 0 ≤ u.balance) :
    ∀ u ∈ (buy_stock stocks st username qtyForm company).2.users,
      0 ≤ u.balance := by
  cases hu : get_user st username with
  | none => simpa only [buy_stock, hu] using h
  | some user =>
    cases qtyForm with
    | none => simpa only [buy_stock, hu] using h
    | some qty =>
      cases hs : stocks.find? (fun s => s.company == company) with
      | none => simpa only [buy_stock, hu, hs] using h
      | some stock =>
        by_cases hb : user.balance < (qty : ℚ) * stock.price
        · simpa only [buy_stock, hu, hs, if_pos hb] using h
        · simp only [buy_stock, hu, hs, if_neg hb]
          intro x hx
          rcases mem_updateFirst _ _ hx with hmem | ⟨y, hy, rfl⟩
          · exact h x hmem
          · have hy' : y = user := by
              rw [get_user] at hu
              exact Option.some.inj (hy.symm.trans hu)
            subst hy'
            have : (qty : ℚ) * stock.price ≤ y.balance := not_lt.1 hb
            simpa using sub_nonneg.2 this

theorem sell_stock_users_nonneg (st : AppState) (username company : String)
    (qtyForm : Option Int) (priceForm : Option ℚ)
    (hsafe : ∀ q, qtyForm = some q → ∀ p, priceForm = some p → 0 < q ∧ 0 ≤ p)
    (h : ∀ u ∈ st.users, 0 ≤ u.balance) :
    ∀ u ∈ (sell_stock st username qtyForm priceForm company).2.users,
      0 ≤ u.balance := by
  cases qtyForm with
  | none => simpa only [sell_stock] using h
  | some qty =>
    cases priceForm with
    | none => simpa only [sell_stock] using h
    | some price =>
      obtain ⟨hq, hp⟩ := hsafe qty rfl price rfl
      cases hh : st.portfolio.find? (matchesHolding username company) with
      | none => simpa only [sell_stock, hh] using h
      | some holding =>
        by_cases hlt : holding.quantity < qty
        · simpa only [sell_stock, hh, if_pos hlt] using h
        · cases hu : get_user st username with
          | none => simpa only [sell_stock, hh, if_neg hlt, hu] using h
          | some user =>
            simp only [sell_stock, hh, if_neg hlt, hu]
            intro x hx
            rcases mem_updateFirst _ _ hx with hmem | ⟨y, hy, rfl⟩
            · exact h x hmem
            · have hmemy : y ∈ st.users := by
                obtain ⟨-, l₁, l₂, hsplit, -⟩ := find?_eq_some_split _ hy
                rw [hsplit]
                simp
              have h1 : (0:ℚ) ≤ y.balance := h y hmemy
              have h2 : (0:ℚ) ≤ price * (qty : ℚ) := by
                apply mul_nonneg hp
                exact_mod_cast hq.le
              simpa using add_nonneg h1 h2

theorem buy_stock_portfolio_pos (stocks : List Stock) (st : AppState)
    (username company : String) (qtyForm : Option Int)
    (hsafe : ∀ q, qtyForm = some q → 0 < q)
    (h : ∀ x ∈ st.portfolio, 0 < x.quantity) :
    ∀ x ∈ (buy_stock stocks st username qtyForm company).2.portfolio,
      0 < x.quantity := by
  cases hu : get_user st username with
  | none => simpa only [buy_stock, hu] using h
  | some user =>
    cases qtyForm with
    | none => simpa only [buy_stock, hu] using h
    | some qty =>
      cases hs : stocks.find? (fun s => s.company == company) with
      | none => simpa only [buy_stock, hu, hs] using h
      | some stock =>
        by_cases hb : user.balance < (qty : ℚ) * stock.price
        · simpa only [buy_stock, hu, hs, if_pos hb] using h
        · simp only [buy_stock, hu, hs, if_neg hb]
          intro x hx
          rcases List.mem_append.1 hx with hmem | hnew
          · exact h x hmem
          · rcases List.mem_singleton.1 hnew with rfl
            exact hsafe qty rfl

theorem sell_stock_portfolio_pos (st : AppState) (username company : String)
    (qtyForm : Option Int) (priceForm : Option ℚ)
    (h : ∀ x ∈ st.portfolio, 0 < x.quantity) :
    ∀ x ∈ (sell_stock st username qtyForm priceForm company).2.portfolio,
      0 < x.quantity := by
  cases qtyForm with
  | none => simpa only [sell_stock] using h
  | some qty =>
    cases priceForm with
    | none => simpa only [sell_stock] using h
    | some price =>
      cases hh : st.portfolio.find? (matchesHolding username company) with
      | none => simpa only [sell_stock, hh] using h
      | some holding =>
        by_cases hlt : holding.quantity < qty
        · simpa only [sell_stock, hh, if_pos hlt] using h
        · cases hu : get_user st username with
          | none => simpa only [sell_stock, hh, if_neg hlt, hu] using h
          | some user =>
            simp only [sell_stock, hh, if_neg hlt, hu]
            intro x hx
            rcases mem_sellPortfolio _ _ _ hx with hmem | ⟨y, hy, hz, rfl⟩
            · exact h x hmem
            · have : y = holding := Option.some.inj (hy.symm.trans hh)
              subst this
              simp only []
              omega

/-! Claims -/

/-- Claim C4: for every account and known symbol, if the buy cost
(price * quantity) exceeds the account's cash balance, buy fails with the
insufficient-balance error and leaves the whole state (balances and
holdings) unchanged — in app.py and in app_aws.py alike. -/
theorem C4_buy_insufficient_balance
    (stocks : List Stock) (st : AppState) (username company : String)
    (qty : Int) (user : User) (stock : Stock)
    (companies : List (String × ℚ)) (ast : AwsState)
    (email acompany : String) (aqty : Int) (apair : String × ℚ)
    (auser : AwsUser)
    (hu : get_user st username = some user)
    (hs : stocks.find? (fun s => s.company == company) = some stock)
    (hcost : user.balance < (qty : ℚ) * stock.price)
    (hap : companies.find? (fun c => c.1 == acompany) = some apair)
    (hau : ast.users.find? (fun u => u.email == email) = some auser)
    (hacost : auser.balance < apair.2 * (aqty : ℚ)) :
    buy_stock stocks st username (some qty) company
        = (.insufficientBalance, st) ∧
    aws_buy_stock companies ast email (some aqty) acompany
        = (.insufficientBalance, ast) := by
  constructor
  · simp only [buy_stock, hu, hs, if_pos hcost]
  · simp only [aws_buy_stock, hap, hau, if_pos hacost]

/-- Witness for C4: buying 1000 shares at 150 with balance 100000 fails
and changes nothing. -/
theorem C4_witness :
    buy_stock exStocks exState "alice" (some 1000) "A"
        = (.insufficientBalance, exState) ∧
    aws_buy_stock exCompanies exAwsState "a@x" (some 1000) "Apple"
        = (.insufficientBalance, exAwsState) :=
  C4_buy_insufficient_balance exStocks exState "alice" "A" 1000 exUser
    exStock exCompanies exAwsState "a@x" "Apple" 1000 ("Apple", 150)
    exAwsUser rfl rfl (by norm_num [exUser, exStock]) rfl rfl
    (by norm_num [exAwsUser])

/-- Claim C5: selling a quantity strictly greater than the total currently
held quantity of that symbol (zero when there is no holding) fails with the
not-enough-quantity error and leaves the whole state unchanged.  The
nonnegativity hypothesis on matching rows makes the first matching row
(the one the handler checks) a lower bound of the total. -/
theorem C5_sell_insufficient_holdings
    (st : AppState) (username company : String) (qty : Int) (price : ℚ)
    (hpos : ∀ h ∈ st.portfolio,
      matchesHolding username company h = true → 0 ≤ h.quantity)
    (hq : heldQty st username company < qty) :
    sell_stock st username (some qty) (some price) company
        = (.notEnough, st) := by
  cases hh : st.portfolio.find? (matchesHolding username company) with
  | none => simp only [sell_stock, hh]
  | some holding =>
    obtain ⟨hm, l₁, l₂, hsplit, -⟩ := find?_eq_some_split _ hh
    have hmem : holding ∈ st.portfolio := by rw [hsplit]; simp
    have hmemq : holding.quantity ∈
        ((st.portfolio.filter (matchesHolding username company)).map
          Holding.quantity) :=
      List.mem_map_of_mem _ (List.mem_filter.2 ⟨hmem, hm⟩)
    have hnn : ∀ x ∈ ((st.portfolio.filter
        (matchesHolding username company)).map Holding.quantity), 0 ≤ x := by
      intro x hx
      obtain ⟨y, hy, rfl⟩ := List.mem_map.1 hx
      exact hpos y (List.mem_filter.1 hy).1 (List.mem_filter.1 hy).2
    have hle : holding.quantity ≤ heldQty st username company :=
      le_sum_of_mem_of_nonneg hnn hmemq
    have hlt : holding.quantity < qty := lt_of_le_of_lt hle hq
    simp only [sell_stock, hh, if_pos hlt]

/-- Witness for C5: selling 10 shares of "A" while holding only 5 fails
and changes nothing. -/
theorem C5_witness :
    sell_stock exState "alice" (some 10) (some 150) "A"
        = (.notEnough, exState) :=
  C5_sell_insufficient_holdings exState "alice" "A" 10 150
    (by decide) (by decide)

/-- Claim C10: signing up with an email address that is already registered
leaves the user store completely unchanged, in app.py and app_aws.py. -/
theorem C10_duplicate_signup
    (st : AppState) (ast : AwsState) (nm em pw anm aem apw : String)
    (hdup : ∃ u ∈ st.users, u.email = em)
    (hadup : ∃ u ∈ ast.users, u.email = aem) :
    signup st nm em pw = (.duplicateEmail, st) ∧
    aws_signup ast anm aem apw = (.duplicateEmail, ast) := by
  constructor
  · obtain ⟨u, hu, he⟩ := hdup
    have : st.users.any (fun u => u.email == em) = true :=
      List.any_eq_true.2 ⟨u, hu, by simp [he]⟩
    simp only [signup, if_pos this]
  · obtain ⟨u, hu, he⟩ := hadup
    have : ast.users.any (fun u => u.email == aem) = true :=
      List.any_eq_true.2 ⟨u, hu, by simp [he]⟩
    simp only [aws_signup, if_pos this]

/-- Witness for C10: a second signup with the already-registered email
"a@x" is rejected and the stores are untouched. -/
theorem C10_witness :
    signup exState "bob" "a@x" "pw2" = (.duplicateEmail, exState) ∧
    aws_signup exAwsState "bob" "a@x" "pw2"
        = (.duplicateEmail, exAwsState) :=
  C10_duplicate_signup exState exAwsState "bob" "a@x" "pw2" "bob" "a@x"
    "pw2" ⟨exUser, by simp [exState], rfl⟩
    ⟨exAwsUser, by simp [exAwsState], rfl⟩

/-- Counterexample to claim C3: alice already holds 5 shares of "A" at
average price 150; a successful buy of 3 more at 150 does NOT leave a
single merged holding of quantity 8 — app.py appends a second row, so the
(account, symbol) pair now has two rows with quantities [5, 3]. -/
theorem C3_counterexample :
    (((buy_stock exStocks exState "alice" (some 3) "A").2.portfolio.filter
        (matchesHolding "alice" "A")).map Holding.quantity = [5, 3]) ∧
    ¬ ((buy_stock exStocks exState "alice" (some 3) "A").2.portfolio.filter
        (matchesHolding "alice" "A")).length = 1 := by
  norm_num [buy_stock, get_user, exState, exStocks, exUser, exHolding,
    exStock, updateFirst, matchesHolding]

/-- Claim C3 as amended: a successful buy appends a fresh holding row with
the bought quantity and the current feed price, leaving every pre-existing
row (including rows for the same account and symbol) unchanged; no
volume-weighted merge takes place, so one (account, symbol) pair may own
several rows. -/
theorem C3_amended_buy_appends
    (stocks : List Stock) (st : AppState) (username company : String)
    (qty : Int) (stock : Stock)
    (hs : stocks.find? (fun s => s.company == company) = some stock)
    (hbuy : (buy_stock stocks st username (some qty) company).1 = .bought) :
    (buy_stock stocks st username (some qty) company).2.portfolio
      = st.portfolio ++
        [{ user := username, company := company,
           quantity := qty, buy_price := stock.price }] := by
  obtain ⟨user', stock', hu', hs', hb, hst1⟩ :=
    buy_stock_bought stocks st username company qty hbuy
  obtain rfl : stock' = stock := Option.some.inj (hs'.symm.trans hs)
  rw [hst1]

/-- Witness for C3 (amended): buying 3 shares of "A" appends the row
(alice, A, 3, 150) after the existing (alice, A, 5, 150) row. -/
theorem C3_witness :
    (buy_stock exStocks exState "alice" (some 3) "A").2.portfolio
      = exState.portfolio ++
        [{ user := "alice", company := "A",
           quantity := 3, buy_price := exStock.price }] :=
  C3_amended_buy_appends exStocks exState "alice" "A" 3 exStock rfl
    (by norm_num [buy_stock, get_user, exState, exStocks, exUser, exStock])

/-- Counterexample to claim C6: a caller-supplied quantity of 0 is not a
positive integer, yet buy does not fail with InvalidQuantity — it succeeds
and mutates the portfolio (a zero-quantity row is appended). -/
theorem C6_counterexample :
    (buy_stock exStocks exState "alice" (some 0) "A").1 = .bought ∧
    (buy_stock exStocks exState "alice" (some 0) "A").2.portfolio
      ≠ exState.portfolio := by
  constructor
  · norm_num [buy_stock, get_user, exState, exStocks, exUser, exStock]
  · norm_num [buy_stock, get_user, exState, exStocks, exUser, exStock,
      exHolding, updateFirst]

/-- Claim C6 as amended: only an UNPARSABLE quantity is rejected, and only
by app.py's buy (flash "Invalid quantity", no mutation).  app.py's sell and
app_aws.py's buy abort on an unparsable quantity with an unhandled
exception (still before any store mutation).  Zero and negative parsed
quantities are not rejected: a buy of q ≤ 0 succeeds whenever the symbol
is known, the feed price is nonnegative and the account balance is
nonnegative. -/
theorem C6_amended_quantity_validation
    (stocks : List Stock) (st : AppState) (username company : String)
    (priceForm : Option ℚ) (q : Int) (user : User) (stock : Stock)
    (companies : List (String × ℚ)) (ast : AwsState)
    (email acompany : String)
    (hu : get_user st username = some user)
    (hs : stocks.find? (fun s => s.company == company) = some stock)
    (hb : 0 ≤ user.balance) (hpr : 0 ≤ stock.price) (hq : q ≤ 0) :
    buy_stock stocks st username none company = (.invalidQuantity, st) ∧
    sell_stock st username none priceForm company = (.crash, st) ∧
    aws_buy_stock companies ast email none acompany = (.crash, ast) ∧
    (buy_stock stocks st username (some q) company).1 = .bought := by
  refine ⟨?_, rfl, rfl, ?_⟩
  · simp only [buy_stock, hu]
  · have hcost : (q : ℚ) * stock.price ≤ 0 :=
      mul_nonpos_iff.2 (Or.inr ⟨by exact_mod_cast hq, hpr⟩)
    have hnl : ¬ user.balance < (q : ℚ) * stock.price :=
      not_lt.2 (le_trans hcost hb)
    simp only [buy_stock, hu, hs, if_neg hnl]

/-- Witness for C6 (amended): unparsable quantities are rejected or crash
with no mutation, while the non-positive quantity -2 buys successfully. -/
theorem C6_witness :
    buy_stock exStocks exState "alice" none "A" = (.invalidQuantity, exState) ∧
    sell_stock exState "alice" none (some 150) "A" = (.crash, exState) ∧
    aws_buy_stock exCompanies exAwsState "a@x" none "Apple"
        = (.crash, exAwsState) ∧
    (buy_stock exStocks exState "alice" (some (-2)) "A").1 = .bought :=
  C6_amended_quantity_validation exStocks exState "alice" "A" (some 150)
    (-2) exUser exStock exCompanies exAwsState "a@x" "Apple" rfl rfl
    (by norm_num [exUser]) (by norm_num [exStock]) (by norm_num)

/-- Counterexample to claim C8: in app_aws.py, buying a symbol that is not
configured in the price feed does not fail with a typed UnknownSymbol
result — `COMPANIES[company]` raises an unhandled `KeyError` (modelled as
the `crash` outcome), i.e. an unrecoverable process fault. -/
theorem C8_counterexample :
    aws_buy_stock exCompanies exAwsState "a@x" (some 1) "DOGE"
        = (.crash, exAwsState) := by rfl

/-- Claim C8 as amended: in app.py, buying an unknown symbol fails with
the typed stock-not-found result and leaves all state unchanged; in
app_aws.py the same request raises an unhandled KeyError (`crash`), though
still before any store mutation, so no state changes in either app. -/
theorem C8_amended_unknown_symbol
    (stocks : List Stock) (st : AppState) (username company : String)
    (q : Int) (user : User)
    (companies : List (String × ℚ)) (ast : AwsState)
    (email acompany : String) (aq : Int)
    (hu : get_user st username = some user)
    (hs : stocks.find? (fun s => s.company == company) = none)
    (hac : companies.find? (fun c => c.1 == acompany) = none) :
    buy_stock stocks st username (some q) company = (.stockNotFound, st) ∧
    aws_buy_stock companies ast email (some aq) acompany
        = (.crash, ast) := by
  constructor
  · simp only [buy_stock, hu, hs]
  · simp only [aws_buy_stock, hac]

/-- Witness for C8 (amended): the unknown symbol "DOGE" is rejected
gracefully by app.py and crashes app_aws.py, with no state change. -/
theorem C8_witness :
    buy_stock exStocks exState "alice" (some 1) "DOGE"
        = (.stockNotFound, exState) ∧
    aws_buy_stock exCompanies exAwsState "a@x" (some 1) "DOGE"
        = (.crash, exAwsState) :=
  C8_amended_unknown_symbol exStocks exState "alice" "DOGE" 1 exUser
    exCompanies exAwsState "a@x" "DOGE" 1 rfl rfl rfl

/-- Counterexample to claim C1: starting from a state whose only balance is
100000, a single sell operation with the caller-supplied sell price
-200000 (the handler accepts any float) drives the account's cash balance
to -100000 < 0. -/
theorem C1_counterexample :
    ∃ u ∈ (run exStocks exState
      [Op.sell "alice" "A" (some 1) (some (-200000))]).users,
      u.balance < 0 := by
  norm_num [run, step, sell_stock, get_user, exState, exStocks, exUser,
    exHolding, matchesHolding, sellPortfolio, updateFirst]

/-- Claim C1 as amended: if every sell operation in the sequence carries a
positive parsed quantity and a nonnegative parsed sell price, then every
account balance that starts nonnegative stays nonnegative after the whole
sequence of engine operations (buy, sell, watchlist add, valuation); buy
needs no side condition because its balance check already guards the
debit. -/
theorem C1_amended_cash_nonneg
    (stocks : List Stock) (st : AppState) (ops : List Op)
    (hops : ∀ op ∈ ops, sellSafe op)
    (hinit : ∀ u ∈ st.users, 0 ≤ u.balance) :
    ∀ u ∈ (run stocks st ops).users, 0 ≤ u.balance := by
  induction ops generalizing st with
  | nil => simpa only [run] using hinit
  | cons op ops ih =>
    rw [run]
    refine ih _ (fun o ho => hops o (List.mem_cons_of_mem _ ho)) ?_
    have hop := hops op (List.mem_cons_self _ _)
    cases op with
    | buy u c q =>
      simpa only [step] using buy_stock_users_nonneg stocks st u c q hinit
    | sell u c q pr =>
      simp only [step]
      refine sell_stock_users_nonneg st u c q pr ?_ hinit
      intro qv hqv pv hpv
      subst hqv
      subst hpv
      exact hop
    | watch u c =>
      simpa only [step, add_to_watchlist_users] using hinit
    | valuation u => simpa only [step] using hinit

/-- Witness for C1 (amended): after a buy of 2 shares at 150 and a sell of
1 share at price 10 the single account's balance, 99710, is nonnegative. -/
theorem C1_witness :
    (0:ℚ) ≤ (User.mk 1 "alice" "a@x" "h" 99710).balance :=
  C1_amended_cash_nonneg exStocks exState
    [Op.buy "alice" "A" (some 2), Op.sell "alice" "A" (some 1) (some 10)]
    (by
      intro op hop
      rcases List.mem_cons.1 hop with rfl | hop
      · trivial
      rcases List.mem_cons.1 hop with rfl | hop
      · exact ⟨by norm_num, by norm_num⟩
      · exact absurd hop (by simp))
    (by
      intro u hu
      simp only [exState, List.mem_singleton] at hu
      subst hu
      norm_num [exUser])
    (User.mk 1 "alice" "a@x" "h" 99710)
    (by norm_num [run, step, buy_stock, sell_stock, get_user, exState,
      exStocks, exUser, exStock, exHolding, matchesHolding, sellPortfolio,
      updateFirst])

/-- Counterexample to claim C2: a single buy with the caller-supplied
quantity 0 succeeds and leaves a holding row whose quantity is not
positive in the portfolio. -/
theorem C2_counterexample :
    ∃ h ∈ (run exStocks exState [Op.buy "alice" "A" (some 0)]).portfolio,
      ¬ 0 < h.quantity := by
  norm_num [run, step, buy_stock, get_user, exState, exStocks, exUser,
    exStock, exHolding, updateFirst]

/-- Claim C2 as amended: if every buy operation in the sequence carries a
positive parsed quantity, then after any sequence of engine operations
every holding row in the portfolio has quantity > 0 (given that is true
initially) — in particular a holding whose quantity a sell reduces to zero
is removed and hence absent from all subsequent listings.  Sells need no
side condition: the quantity check plus the zero-row removal preserve
positivity for any caller-supplied sell quantity. -/
theorem C2_amended_holdings_pos
    (stocks : List Stock) (st : AppState) (ops : List Op)
    (hops : ∀ op ∈ ops, buySafe op)
    (hinit : ∀ h ∈ st.portfolio, 0 < h.quantity) :
    ∀ h ∈ (run stocks st ops).portfolio, 0 < h.quantity := by
  induction ops generalizing st with
  | nil => simpa only [run] using hinit
  | cons op ops ih =>
    rw [run]
    refine ih _ (fun o ho => hops o (List.mem_cons_of_mem _ ho)) ?_
    have hop := hops op (List.mem_cons_self _ _)
    cases op with
    | buy u c q =>
      simp only [step]
      refine buy_stock_portfolio_pos stocks st u c q ?_ hinit
      intro qv hqv
      subst hqv
      exact hop
    | sell u c q pr =>
      simpa only [step] using sell_stock_portfolio_pos st u c q pr hinit
    | watch u c =>
      simpa only [step, add_to_watchlist_portfolio] using hinit
    | valuation u => simpa only [step] using hinit

/-- Witness for C2 (amended): after buying 2 shares and then selling the
whole pre-existing 5-share row (which removes that row), the remaining
row's quantity 2 is positive. -/
theorem C2_witness :
    (0:Int) < (Holding.mk "alice" "A" 2 150).quantity :=
  C2_amended_holdings_pos exStocks exState
    [Op.buy "alice" "A" (some 2), Op.sell "alice" "A" (some 5) (some 150)]
    (by
      intro op hop
      rcases List.mem_cons.1 hop with rfl | hop
      · norm_num [buySafe]
      rcases List.mem_cons.1 hop with rfl | hop
      · trivial
      · exact absurd hop (by simp))
    (by
      intro h hh
      simp only [exState, List.mem_singleton] at hh
      subst hh
      norm_num [exHolding])
    (Holding.mk "alice" "A" 2 150)
    (by norm_num [run, step, buy_stock, sell_stock, get_user, exState,
      exStocks, exUser, exStock, exHolding, matchesHolding, sellPortfolio,
      updateFirst])

/-- Claim C9: a successful sell changes only the seller's cash balance and
the quantity of the first matching holding row (removing the row when its
quantity reaches zero).  Watchlists are untouched; every user keeps their
id, name, email and password and every user other than the seller is
completely unchanged; every portfolio row before and after the affected
row is unchanged, and the affected row keeps its user, company and
buy_price. -/
theorem C9_sell_frame
    (st : AppState) (username company : String) (qty : Int) (price : ℚ)
    (hsold : (sell_stock st username (some qty) (some price) company).1
      = .sold) :
    (sell_stock st username (some qty) (some price) company).2.watchlists
        = st.watchlists ∧
    List.Forall₂ (fun u u' : User => u'.id = u.id ∧ u'.name = u.name ∧
        u'.email = u.email ∧ u'.password = u.password ∧
        (u.name ≠ username → u' = u))
      st.users
      (sell_stock st username (some qty) (some price) company).2.users ∧
    ∃ l₁ h l₂, st.portfolio = l₁ ++ h :: l₂ ∧
      matchesHolding username company h = true ∧
      (∀ x ∈ l₁, matchesHolding username company x = false) ∧
      (sell_stock st username (some qty) (some price) company).2.portfolio
        = l₁ ++ (if h.quantity - qty = 0 then l₂
            else { h with quantity := h.quantity - qty } :: l₂) := by
  obtain ⟨holding, user, hh, hq, hu, hst⟩ :=
    sell_stock_sold st username company qty price hsold
  obtain ⟨hm, l₁, l₂, hsplit, hl₁⟩ := find?_eq_some_split _ hh
  refine ⟨by rw [hst], ?_, l₁, holding, l₂, hsplit, hm, hl₁, ?_⟩
  · rw [hst]
    apply forall₂_updateFirst
    · intro x
      exact ⟨rfl, rfl, rfl, rfl, fun _ => rfl⟩
    · intro x hx
      refine ⟨rfl, rfl, rfl, rfl, fun hne => ?_⟩
      exact absurd (by simpa using hx) hne
  · rw [hst]
    show sellPortfolio username company qty st.portfolio = _
    rw [hsplit,
      sellPortfolio_of_split username company qty holding l₂ l₁ hl₁ hm]

/-- Witness for C9: the concrete sell of 2 shares of "A" from the example
state satisfies the frame property. -/
theorem C9_witness :
    (sell_stock exState "alice" (some 2) (some 150) "A").2.watchlists
        = exState.watchlists ∧
    List.Forall₂ (fun u u' : User => u'.id = u.id ∧ u'.name = u.name ∧
        u'.email = u.email ∧ u'.password = u.password ∧
        (u.name ≠ "alice" → u' = u))
      exState.users
      (sell_stock exState "alice" (some 2) (some 150) "A").2.users ∧
    ∃ l₁ h l₂, exState.portfolio = l₁ ++ h :: l₂ ∧
      matchesHolding "alice" "A" h = true ∧
      (∀ x ∈ l₁, matchesHolding "alice" "A" x = false) ∧
      (sell_stock exState "alice" (some 2) (some 150) "A").2.portfolio
        = l₁ ++ (if h.quantity - 2 = 0 then l₂
            else { h with quantity := h.quantity - 2 } :: l₂) :=
  C9_sell_frame exState "alice" "A" 2 150
    (by norm_num [sell_stock, get_user, exState, exUser, exHolding,
      matchesHolding, sellPortfolio, updateFirst])

/-! Evaluation lemmas for the binary64 rounding model. -/

theorem roundDouble_eval (x : ℚ) (e : ℤ) (hx : 0 < x)
    (h1 : (2:ℚ) ^ e ≤ x) (h2 : x < (2:ℚ) ^ (e + 1)) :
    roundDouble x = roundQuantum ((2:ℚ) ^ (e - 52)) x := by
  have hb : 1 < 2 := one_lt_two
  have hlog : Int.log 2 x = e := by
    have hle : e ≤ Int.log 2 x := by
      refine (Int.zpow_le_iff_le_log hb hx).1 ?_
      exact_mod_cast h1
    have hlt : Int.log 2 x < e + 1 := by
      refine (Int.lt_zpow_iff_log_lt hb hx).1 ?_
      exact_mod_cast h2
    omega
  rw [roundDouble, if_neg hx.ne', if_pos hx, hlog]

theorem roundQuantum_exact (u x : ℚ) (n : ℤ) (hu : u ≠ 0)
    (hn : x = (n : ℚ) * u) :
    roundQuantum u x = x := by
  have hdiv : x / u = (n : ℚ) := by
    rw [hn]
    field_simp
  rw [roundQuantum, hdiv]
  simp [Int.floor_intCast, hn]

theorem roundQuantum_half_even (u x : ℚ) (n : ℤ) (hdiv : x / u = (n : ℚ) + 1/2)
    (hev : n % 2 = 0) :
    roundQuantum u x = (n : ℚ) * u := by
  have hfl : ⌊x / u⌋ = n := by
    rw [hdiv, Int.floor_eq_iff]
    constructor
    · norm_num
    · norm_num
  rw [roundQuantum, hfl, hdiv]
  norm_num [hev]

theorem roundDouble_int_mul (x : ℚ) (e n : ℤ) (hx : 0 < x)
    (h1 : (2:ℚ) ^ e ≤ x) (h2 : x < (2:ℚ) ^ (e + 1))
    (hn : x = (n : ℚ) * (2:ℚ) ^ (e - 52)) :
    roundDouble x = x := by
  rw [roundDouble_eval x e hx h1 h2]
  exact roundQuantum_exact _ x n (zpow_ne_zero _ two_ne_zero) hn

/-- 1.0 is exactly representable. -/
theorem roundDouble_one : roundDouble 1 = 1 :=
  roundDouble_int_mul 1 0 (2 ^ 52) one_pos (by norm_num) (by norm_num)
    (by norm_num)

/-- 2^53 + 1 is NOT representable in binary64: the spacing at 2^53 is 2,
and the round-to-nearest tie goes to the even significand 2^52, i.e. down
to 2^53 = 9007199254740992. -/
theorem roundDouble_tie : roundDouble 9007199254740993 = 9007199254740992 := by
  rw [roundDouble_eval 9007199254740993 53 (by norm_num) (by norm_num)
    (by norm_num)]
  have hu : ((2:ℚ) ^ ((53:ℤ) - 52)) = 2 := by norm_num
  rw [hu, roundQuantum_half_even 2 9007199254740993 4503599627370496
    (by norm_num) (by norm_num)]
  norm_num

theorem roundDouble_ten : roundDouble 10 = 10 :=
  roundDouble_int_mul 10 3 (10 * 2 ^ 49) (by norm_num) (by norm_num)
    (by norm_num) (by norm_num)

theorem roundDouble_1500 : roundDouble 1500 = 1500 :=
  roundDouble_int_mul 1500 10 (1500 * 2 ^ 42) (by norm_num) (by norm_num)
    (by norm_num) (by norm_num)

theorem roundDouble_98500 : roundDouble 98500 = 98500 :=
  roundDouble_int_mul 98500 16 (98500 * 2 ^ 36) (by norm_num) (by norm_num)
    (by norm_num) (by norm_num)

theorem roundDouble_100000 : roundDouble 100000 = 100000 :=
  roundDouble_int_mul 100000 16 (100000 * 2 ^ 36) (by norm_num)
    (by norm_num) (by norm_num) (by norm_num)

theorem fofInt_one : fofInt 1 = 1 := by
  rw [fofInt, Int.cast_one, roundDouble_one]

theorem fofInt_ten : fofInt 10 = 10 := by
  rw [fofInt]
  norm_num [roundDouble_ten]

theorem fmul_one_one : fmul 1 1 = 1 := by
  rw [fmul, one_mul, roundDouble_one]

theorem fmul_ten_150 : fmul 10 150 = 1500 := by
  rw [fmul, (by norm_num : (10:ℚ) * 150 = 1500), roundDouble_1500]

theorem fmul_150_ten : fmul 150 10 = 1500 := by
  rw [fmul, (by norm_num : (150:ℚ) * 10 = 1500), roundDouble_1500]

theorem fsub_100000_1500 : fsub 100000 1500 = 98500 := by
  rw [fsub, (by norm_num : (100000:ℚ) - 1500 = 98500), roundDouble_98500]

theorem fadd_98500_1500 : fadd 98500 1500 = 100000 := by
  rw [fadd, (by norm_num : (98500:ℚ) + 1500 = 100000), roundDouble_100000]

theorem fsub_tie : fsub 9007199254740994 1 = 9007199254740992 := by
  rw [fsub,
    (by norm_num : (9007199254740994:ℚ) - 1 = 9007199254740993),
    roundDouble_tie]

theorem fadd_tie : fadd 9007199254740992 1 = 9007199254740992 := by
  rw [fadd,
    (by norm_num : (9007199254740992:ℚ) + 1 = 9007199254740993),
    roundDouble_tie]

/-! Characterisation of the success paths of the binary64 versions. -/

theorem buy_stock_float_bought (stocks : List Stock) (st : AppState)
    (username company : String) (qty : Int)
    (h : (buy_stock_float stocks st username (some qty) company).1
      = .bought) :
    ∃ user stock, get_user st username = some user ∧
      stocks.find? (fun s => s.company == company) = some stock ∧
      ¬ user.balance < fmul (fofInt qty) stock.price ∧
      (buy_stock_float stocks st username (some qty) company).2 =
        { st with
          users := updateFirst (fun u => u.name == username)
            (fun u => { u with
              balance := fsub u.balance (fmul (fofInt qty) stock.price) })
            st.users
          portfolio := st.portfolio ++
            [{ user := username, company := company,
               quantity := qty, buy_price := stock.price }] } := by
  cases hu : get_user st username with
  | none => simp [buy_stock_float, hu] at h
  | some user =>
    cases hs : stocks.find? (fun s => s.company == company) with
    | none => simp [buy_stock_float, hu, hs] at h
    | some stock =>
      by_cases hb : user.balance < fmul (fofInt qty) stock.price
      · simp [buy_stock_float, hu, hs, if_pos hb] at h
      · refine ⟨user, stock, rfl, rfl, hb, ?_⟩
        simp only [buy_stock_float, hu, hs, if_neg hb]

theorem sell_stock_float_sold (st : AppState) (username company : String)
    (qty : Int) (price : ℚ)
    (h : (sell_stock_float st username (some qty) (some price) company).1
      = .sold) :
    ∃ holding user,
      st.portfolio.find? (matchesHolding username company) = some holding ∧
      ¬ holding.quantity < qty ∧
      get_user st username = some user ∧
      (sell_stock_float st username (some qty) (some price) company).2 =
        { st with
          users := updateFirst (fun u => u.name == username)
            (fun u => { u with
              balance := fadd u.balance (fmul price (fofInt qty)) })
            st.users
          portfolio := sellPortfolio username company qty st.portfolio } := by
  cases hh : st.portfolio.find? (matchesHolding username company) with
  | none => simp [sell_stock_float, hh] at h
  | some holding =>
    by_cases hq : holding.quantity < qty
    · simp [sell_stock_float, hh, if_pos hq] at h
    · cases hu : get_user st username with
      | none => simp [sell_stock_float, hh, if_neg hq, hu] at h
      | some user =>
        refine ⟨holding, user, rfl, hq, rfl, ?_⟩
        simp only [sell_stock_float, hh, if_neg hq, hu]

/-- Counterexample to claim C7: with app.py's actual binary64 balance
arithmetic the round trip is NOT exact.  From the accepted balance
2^53 + 2 = 9007199254740994, a successful buy of 1 share at price 1
followed by a successful sell of 1 share at price 1 ends at
2^53 = 9007199254740992: both `balance - 1.0` and `balance + 1.0` hit the
representation gap at 2^53 (spacing 2) and round ties-to-even downwards,
leaving the balance 2 below its pre-buy value. -/
theorem C7_counterexample :
    (buy_stock_float exStocksOne exStateBig "alice" (some 1) "B").1
        = .bought ∧
    (sell_stock_float
        (buy_stock_float exStocksOne exStateBig "alice" (some 1) "B").2
        "alice" (some 1) (some 1) "B").1 = .sold ∧
    (get_user (sell_stock_float
        (buy_stock_float exStocksOne exStateBig "alice" (some 1) "B").2
        "alice" (some 1) (some 1) "B").2 "alice").map User.balance
      = some 9007199254740992 ∧
    (9007199254740992 : ℚ) ≠ 9007199254740994 := by
  have hb : buy_stock_float exStocksOne exStateBig "alice" (some 1) "B"
      = (.bought,
        { users := [{ id := 1, name := "alice", email := "a@x",
                      password := "h", balance := 9007199254740992 }],
          portfolio := [{ user := "alice", company := "B",
                          quantity := 1, buy_price := 1 }],
          watchlists := [] }) := by
    norm_num [buy_stock_float, get_user, exStateBig, exStocksOne,
      updateFirst, fofInt_one, fmul_one_one, fsub_tie]
  rw [hb]
  norm_num [sell_stock_float, get_user, matchesHolding, sellPortfolio,
    updateFirst, fofInt_one, fmul_one_one, fadd_tie]

/-- Claim C7 as amended: a successful buy of q shares at the feed price p
immediately followed by a successful sell of q shares at sell price p
returns the cash balance exactly to its pre-buy value PROVIDED the two
binary64 balance updates incur no rounding (their exact results are
representable doubles, as at the spec scenario 100000 − 1500 + 1500); the
two products cancel exactly because double multiplication is commutative
and deterministic.  Without the no-rounding proviso the identity fails
(see the 2^53 + 2 counterexample). -/
theorem C7_amended_round_trip
    (stocks : List Stock) (st : AppState) (username company : String)
    (qty : Int) (p : ℚ) (user : User) (stock : Stock)
    (hu : get_user st username = some user)
    (hs : stocks.find? (fun s => s.company == company) = some stock)
    (hp : stock.price = p)
    (hbuy : (buy_stock_float stocks st username (some qty) company).1
      = .bought)
    (hsell : (sell_stock_float
        (buy_stock_float stocks st username (some qty) company).2
        username (some qty) (some p) company).1 = .sold)
    (hnr1 : roundDouble (user.balance - fmul (fofInt qty) p)
      = user.balance - fmul (fofInt qty) p)
    (hnr2 : roundDouble
        (user.balance - fmul (fofInt qty) p + fmul p (fofInt qty))
      = user.balance - fmul (fofInt qty) p + fmul p (fofInt qty)) :
    (get_user (sell_stock_float
        (buy_stock_float stocks st username (some qty) company).2
        username (some qty) (some p) company).2 username).map User.balance
      = some user.balance := by
  obtain ⟨user', stock', hu', hs', hb, hst1⟩ :=
    buy_stock_float_bought stocks st username company qty hbuy
  obtain ⟨holding, user2, hh2, hq2, hu2, hst2⟩ :=
    sell_stock_float_sold
      (buy_stock_float stocks st username (some qty) company).2
      username company qty p hsell
  have huu : user' = user := Option.some.inj (hu'.symm.trans hu)
  have hss : stock' = stock := Option.some.inj (hs'.symm.trans hs)
  have husers2 : (sell_stock_float
      (buy_stock_float stocks st username (some qty) company).2
      username (some qty) (some p) company).2.users
      = updateFirst (fun u => u.name == username)
        (fun u => { u with
          balance := fadd u.balance (fmul p (fofInt qty)) })
        (buy_stock_float stocks st username (some qty) company).2.users := by
    rw [hst2]
  have hfind1 : (buy_stock_float stocks st username
      (some qty) company).2.users.find? (fun u => u.name == username)
      = some { user' with
          balance := fsub user'.balance (fmul (fofInt qty) stock'.price) }
      := by
    rw [hst1]
    show (updateFirst (fun u => u.name == username)
      (fun u => { u with
        balance := fsub u.balance (fmul (fofInt qty) stock'.price) })
      st.users).find? (fun u => u.name == username) = _
    rw [find?_updateFirst (fun u : User => u.name == username)
      (fun u : User => { u with
        balance := fsub u.balance (fmul (fofInt qty) stock'.price) })
      (fun x hx => hx)]
    rw [get_user] at hu'
    rw [hu']
    rfl
  rw [get_user, husers2,
    find?_updateFirst (fun u : User => u.name == username)
      (fun u : User => { u with
        balance := fadd u.balance (fmul p (fofInt qty)) })
      (fun x hx => hx), hfind1]
  have key : fadd (fsub user'.balance (fmul (fofInt qty) stock'.price))
      (fmul p (fofInt qty)) = user.balance := by
    rw [huu, hss, hp, fsub, hnr1, fadd, hnr2]
    have hcomm : fmul p (fofInt qty) = fmul (fofInt qty) p := by
      rw [fmul, fmul, mul_comm]
    rw [hcomm]
    ring
  show some (fadd (fsub user'.balance (fmul (fofInt qty) stock'.price))
      (fmul p (fofInt qty))) = some user.balance
  exact congrArg some key

/-- Witness for C7 (amended): from a fresh portfolio with balance 100000,
buying 10 shares of "A" at 150 and selling the same 10 at 150 passes
through the representable values 98500 and 100000 (no rounding), so the
balance returns exactly to 100000. -/
theorem C7_witness :
    (get_user (sell_stock_float
        (buy_stock_float exStocks exStateEmpty "alice" (some 10) "A").2
        "alice" (some 10) (some 150) "A").2 "alice").map User.balance
      = some exUser.balance :=
  C7_amended_round_trip exStocks exStateEmpty "alice" "A" 10 150 exUser
    exStock rfl rfl rfl
    (by norm_num [buy_stock_float, get_user, exStateEmpty, exStocks,
      exUser, exStock, fofInt_ten, fmul_ten_150])
    (by
      have hb : buy_stock_float exStocks exStateEmpty "alice" (some 10) "A"
          = (.bought,
            { users := [{ id := 1, name := "alice", email := "a@x",
                          password := "h", balance := 98500 }],
              portfolio := [{ user := "alice", company := "A",
                              quantity := 10, buy_price := 150 }],
              watchlists := [] }) := by
        norm_num [buy_stock_float, get_user, exStateEmpty, exStocks,
          exUser, exStock, updateFirst, fofInt_ten, fmul_ten_150,
          fsub_100000_1500]
      rw [hb]
      norm_num [sell_stock_float, get_user, matchesHolding])
    (by norm_num [exUser, fofInt_ten, fmul_ten_150, roundDouble_98500])
    (by norm_num [exUser, fofInt_ten, fmul_ten_150, fmul_150_ten,
      roundDouble_100000])
